import Mathlib

/-!
Verification of the yaml-language-server language-service façade
(`src/languageservice/yamlLanguageService.ts`) against its natural-language
specification.  Pure parts of the code are embedded as Lean functions;
stateful services are embedded as explicit state passing.  Components of the
repository whose implementation files are not available (the schema service,
resolver, matcher and producers) are modelled from the specification; each
such definition carries a doc comment saying so.
-/

namespace YamlLS

/-! ## Operation surface (C1, C9)

The `LanguageService` object literal returned by `getLanguageService`
(yamlLanguageService.ts lines 108–148) has exactly these member keys.  We
embed the member names as an inductive type so that the comparison with the
spec's list is decidable.
-/

/-- A member name of the object returned by `getLanguageService`
(source: the object literal, yamlLanguageService.ts lines 108–148). -/
inductive LSMember where
  | configure
  | registerCustomSchemaProvider
  | findDefinition
  | findLinks
  | doComplete
  | doValidation
  | doHover
  | findDocumentSymbols
  | findDocumentSymbols2
  | resetSchema
  | doFormat
  | addSchema
  | deleteSchema
  | modifySchemaContent
  | deleteSchemaContent
deriving DecidableEq, Repr

/-- The member keys of the object literal returned by `getLanguageService`,
in source order (yamlLanguageService.ts lines 108–148). -/
def languageServiceMembers : List LSMember :=
  [ .configure, .registerCustomSchemaProvider, .findDefinition, .findLinks,
    .doComplete, .doValidation, .doHover, .findDocumentSymbols,
    .findDocumentSymbols2, .resetSchema, .doFormat, .addSchema,
    .deleteSchema, .modifySchemaContent, .deleteSchemaContent ]

/-- The operations named by the spec's "Public operation surface" sentence:
configure, register a custom schema provider, complete, validate, hover,
findSymbols (flat and hierarchical), resetSchema, the four direct Schema
Store mutations, and format.  This definition follows the spec's words, to
be compared with `languageServiceMembers`. -/
def specListedOperations : List LSMember :=
  [ .configure, .registerCustomSchemaProvider, .doComplete, .doValidation,
    .doHover, .findDocumentSymbols, .findDocumentSymbols2, .resetSchema,
    .addSchema, .deleteSchema, .modifySchemaContent, .deleteSchemaContent,
    .doFormat ]

/-! ## Stub collaborator types

These stand for the externally supplied protocol types
(vscode-languageserver-types); the façade never inspects their contents. -/

/-- A text document handed in by the host (collaborator type). -/
structure TextDocument where
  uri : String
  text : String
deriving DecidableEq, Repr

/-- A cursor position (collaborator type). -/
structure Position where
  line : Nat
  character : Nat
deriving DecidableEq, Repr

/-- A parsed JSON document handed to `findDefinition` (collaborator type). -/
structure JSONDocument where
  id : Nat
deriving DecidableEq, Repr

/-- A definition link (collaborator type). -/
structure DefinitionLink where
  targetUri : String
deriving DecidableEq, Repr

/-- `findDefinition` as implemented by `getLanguageService`
(yamlLanguageService.ts line 125): `() => Promise.resolve([])` — it ignores
every argument and resolves to the empty array. -/
def findDefinition (_document : TextDocument) (_position : Position)
    (_doc : JSONDocument) : List DefinitionLink :=
  []

/-! ## Schema service state (C7, C8, C10)

`getLanguageService` constructs a `YAMLSchemaService` and delegates to it.
That class's implementation file is not part of the available sources, so its
state and methods are modelled from the spec; the façade-level wiring
(`configure`, `resetSchema`, `addSchema`, …) is embedded from the source. -/

/-- A JSON schema value; its internal shape is irrelevant to the façade. -/
structure JSONSchema where
  content : String
deriving DecidableEq, Repr

/-- An externally registered schema association
(uri, optional fileMatch globs, optional inline schema), as passed by
`configure` to `registerExternalSchema` (yamlLanguageService.ts line 113). -/
structure SchemaEntry where
  uri : String
  fileMatch : Option (List String)
  schema : Option JSONSchema
deriving DecidableEq, Repr

/-- A cached schema resolution.  Modelled from the spec: cache entries are
keyed by URI and record the set of URIs their resolution chain touched
("any cache entry whose resolution chain touched the changed URI" is
invalidated). -/
structure CacheEntry where
  uri : String
  chain : List String
  resolvedContent : String
deriving DecidableEq, Repr

/-- The entry in `settings.schemas` consumed by `configure`
(yamlLanguageService.ts lines 55–69, `SchemaConfiguration`). -/
structure SchemaConfiguration where
  uri : String
  fileMatch : Option (List String)
  schema : Option JSONSchema
deriving DecidableEq, Repr

/-- The settings object accepted by `configure`
(yamlLanguageService.ts lines 29–42, `LanguageSettings`). -/
structure LanguageSettings where
  validate : Option Bool := none
  hover : Option Bool := none
  completion : Option Bool := none
  format : Option Bool := none
  isKubernetes : Option Bool := none
  schemas : Option (List SchemaConfiguration) := none
  customTags : Option (List String) := none
  indentation : Option String := none
deriving DecidableEq, Repr

/-- The mutable state of the `YAMLSchemaService`.  Modelled from the spec:
the service owns the external schema associations, the directly saved
schemas, and the resolution cache. -/
structure SchemaServiceState where
  externalSchemas : List SchemaEntry
  savedSchemas : List (String × JSONSchema)
  cache : List CacheEntry
deriving DecidableEq, Repr

/-- Modelled from the spec: `clearExternalSchemas` drops every previously
registered external schema association (the implementation file of
`YAMLSchemaService` is missing). -/
def clearExternalSchemas (ss : SchemaServiceState) : SchemaServiceState :=
  { ss with externalSchemas := [] }

/-- Modelled from the spec: `registerExternalSchema uri fileMatch schema`
appends one (uri, fileMatch, schema) association (the implementation file of
`YAMLSchemaService` is missing). -/
def registerExternalSchema (ss : SchemaServiceState) (uri : String)
    (fileMatch : Option (List String)) (schema : Option JSONSchema) :
    SchemaServiceState :=
  { ss with externalSchemas := ss.externalSchemas ++ [⟨uri, fileMatch, schema⟩] }

/-- Modelled from the spec: `onResourceChange uri` evicts every cache entry
whose resolution chain touched `uri` and reports whether anything was
invalidated (the implementation file of `YAMLSchemaService` is missing). -/
def onResourceChange (ss : SchemaServiceState) (uri : String) :
    SchemaServiceState × Bool :=
  ({ ss with cache := ss.cache.filter (fun e => !decide (uri ∈ e.chain)) },
    ss.cache.any (fun e => decide (uri ∈ e.chain)))

/-- Modelled from the spec: `saveSchema` registers a schema directly in the
Schema Store under the given id. -/
def saveSchema (ss : SchemaServiceState) (schemaID : String)
    (schema : JSONSchema) : SchemaServiceState :=
  { ss with savedSchemas := ss.savedSchemas ++ [(schemaID, schema)] }

/-- Modelled from the spec: `deleteSchema` removes the schema saved under the
given id and evicts cache entries that depended on it. -/
def deleteSchema (ss : SchemaServiceState) (schemaID : String) :
    SchemaServiceState :=
  { ss with
    savedSchemas := ss.savedSchemas.filter (fun p => !decide (p.1 = schemaID))
    cache := ss.cache.filter (fun e => !decide (schemaID ∈ e.chain)) }

/-- The per-producer settings retained by `configure` for the validation,
hover, completion and formatter producers (yamlLanguageService.ts
lines 116–120); the producers' own files are missing, so we model their
`configure` methods as storing the settings. -/
structure ServiceState where
  schemaService : SchemaServiceState
  validationSettings : Option LanguageSettings
  hoverSettings : Option LanguageSettings
  completionSettings : Option LanguageSettings
  completionCustomTags : List String
  formatterSettings : Option LanguageSettings
deriving DecidableEq, Repr

/-- `configure` as implemented by the object returned by
`getLanguageService` (yamlLanguageService.ts lines 109–121): clear the
external schemas, re-register every entry of `settings.schemas` (when
present), then hand the settings to the four producers. -/
def configure (st : ServiceState) (settings : LanguageSettings) : ServiceState :=
  let ss := clearExternalSchemas st.schemaService
  let ss :=
    match settings.schemas with
    | none => ss
    | some l =>
        l.foldl (fun a c => registerExternalSchema a c.uri c.fileMatch c.schema) ss
  { st with
    schemaService := ss
    validationSettings := some settings
    hoverSettings := some settings
    completionSettings := some settings
    completionCustomTags := (settings.customTags).getD []
    formatterSettings := some settings }

/-- `resetSchema` as implemented by the object returned by
`getLanguageService` (yamlLanguageService.ts lines 132–134): it delegates to
the schema service's `onResourceChange` and returns its boolean result. -/
def resetSchema (st : ServiceState) (uri : String) : ServiceState × Bool :=
  let (ss, changed) := onResourceChange st.schemaService uri
  ({ st with schemaService := ss }, changed)

/-- `addSchema` as implemented by the façade (yamlLanguageService.ts
lines 136–138): delegates to `saveSchema`. -/
def addSchema (st : ServiceState) (schemaID : String) (schema : JSONSchema) :
    ServiceState :=
  { st with schemaService := saveSchema st.schemaService schemaID schema }

/-- `deleteSchema` at the façade level (yamlLanguageService.ts
lines 139–141): delegates to the schema service. -/
def deleteSchemaLS (st : ServiceState) (schemaID : String) : ServiceState :=
  { st with schemaService := deleteSchema st.schemaService schemaID }

/-- The fetch collaborator (yamlLanguageService.ts lines 51–53,
`SchemaRequestService`): given a URI it produces either the schema content
or a displayable error string. -/
def SchemaRequestService : Type := String → Except String String

/-- The workspace-context collaborator (yamlLanguageService.ts
lines 44–46). -/
def WorkspaceContextService : Type := String → String → String

/-- A language-service instance: the collaborators it closed over and its
owned state. -/
structure Instance where
  request : SchemaRequestService
  workspaceContext : WorkspaceContextService
  state : ServiceState

/-- The state every fresh instance starts from: an empty schema service and
unconfigured producers. -/
def freshServiceState : ServiceState :=
  { schemaService := { externalSchemas := [], savedSchemas := [], cache := [] }
    validationSettings := none
    hoverSettings := none
    completionSettings := none
    completionCustomTags := []
    formatterSettings := none }

/-- `getLanguageService` (yamlLanguageService.ts lines 97–148): constructs a
fresh schema service and fresh producers from the two collaborators — its
result depends on nothing but its arguments (the source file has no
module-level mutable state). -/
def getLanguageService (req : SchemaRequestService)
    (ctx : WorkspaceContextService) : Instance :=
  { request := req, workspaceContext := ctx, state := freshServiceState }

/-- A state-mutating operation performed through one instance's façade. -/
inductive LSOp where
  | opConfigure (settings : LanguageSettings)
  | opAddSchema (schemaID : String) (schema : JSONSchema)
  | opDeleteSchema (schemaID : String)
  | opResetSchema (uri : String)

/-- Apply a façade operation to one instance. -/
def applyOp (inst : Instance) : LSOp → Instance
  | .opConfigure settings => { inst with state := configure inst.state settings }
  | .opAddSchema schemaID schema =>
      { inst with state := addSchema inst.state schemaID schema }
  | .opDeleteSchema schemaID =>
      { inst with state := deleteSchemaLS inst.state schemaID }
  | .opResetSchema uri => { inst with state := (resetSchema inst.state uri).1 }

/-- A process holding several independent instances, indexed by the call
of `getLanguageService` that created each. -/
def Process : Type := Nat → Instance

/-- Performing an operation through instance `i` of a process. -/
def stepProcess (p : Process) (i : Nat) (op : LSOp) : Process :=
  fun j => if j = i then applyOp (p j) op else p j

/-! ## Document model, symbols and structural diagnostics (C2, C5, C6)

The parser collaborator is out of scope; the node tree it produces is
modelled from the spec's data model (§3): mapping, sequence, scalar and
alias nodes, each with a half-open offset range.  Lists of children are
encoded by the mutual types `PairList`/`NodeList` so that mutual induction
is available. -/

/-- A half-open offset range in the source text. -/
structure DocRange where
  start : Nat
  stop : Nat
deriving DecidableEq, Repr

mutual
/-- Modelled from the spec (§3 DocumentNode): a position-tagged node of the
parsed tree; the parser that produces it is an out-of-scope collaborator. -/
inductive DocumentNode where
  | scalar (styp : String) (value : String) (range : DocRange)
  | aliasRef (name : String) (range : DocRange)
  | mapping (pairs : PairList) (range : DocRange)
  | sequence (items : NodeList) (range : DocRange)
deriving DecidableEq, Repr
/-- The key/value pairs of a mapping node. -/
inductive PairList where
  | nil
  | cons (key : String) (keyRange : DocRange) (value : DocumentNode) (rest : PairList)
deriving DecidableEq, Repr
/-- The items of a sequence node. -/
inductive NodeList where
  | nil
  | cons (head : DocumentNode) (tail : NodeList)
deriving DecidableEq, Repr
end

/-- A parsed document: its root node plus the set of anchor names defined in
it (used to resolve alias references). -/
structure ParsedDocument where
  root : DocumentNode
  anchors : List String
deriving DecidableEq, Repr

/-- The source range of a node. -/
def DocumentNode.rangeOf : DocumentNode → DocRange
  | .scalar _ _ r => r
  | .aliasRef _ r => r
  | .mapping _ r => r
  | .sequence _ r => r

/-- The kind attached to a produced symbol. -/
inductive SymbolKind where
  | property
  | item
deriving DecidableEq, Repr

mutual
/-- A produced document symbol: (name, kind, range) plus children. -/
inductive DocSymbol where
  | mk (name : String) (kind : SymbolKind) (range : DocRange) (children : SymList)
deriving DecidableEq, Repr
/-- A list of document symbols. -/
inductive SymList where
  | nil
  | cons (s : DocSymbol) (rest : SymList)
deriving DecidableEq, Repr
end

mutual
/-- Modelled from the spec (§4.6): the symbol producer is a pure structural
walk of the node tree — mapping keys and sequence indices become symbols;
no schema is consulted (the `documentSymbols.ts` file is missing). -/
def nodeSymbols : DocumentNode → SymList
  | .scalar _ _ _ => .nil
  | .aliasRef _ _ => .nil
  | .mapping ps _ => pairSymbols ps
  | .sequence its _ => seqSymbols its 0
/-- Symbols of a mapping's pairs: one per key, children from the value. -/
def pairSymbols : PairList → SymList
  | .nil => .nil
  | .cons k kr v rest => .cons (.mk k .property kr (nodeSymbols v)) (pairSymbols rest)
/-- Symbols of a sequence's items: one per index, children from the item. -/
def seqSymbols : NodeList → Nat → SymList
  | .nil, _ => .nil
  | .cons h t, i => .cons (.mk (toString i) .item h.rangeOf (nodeSymbols h)) (seqSymbols t (i + 1))
end

/-- The hierarchical symbol operation (`findDocumentSymbols2`): although the
producer object is constructed over the schema service
(yamlLanguageService.ts line 104), the walk reads only the document. -/
def findDocumentSymbols2M (_st : ServiceState) (doc : ParsedDocument) : SymList :=
  nodeSymbols doc.root

mutual
/-- Flatten a symbol hierarchy into the flat (name, kind, range) list. -/
def flattenSym : DocSymbol → List (String × SymbolKind × DocRange)
  | .mk n k r cs => (n, k, r) :: flattenSyms cs
/-- Flatten a symbol list. -/
def flattenSyms : SymList → List (String × SymbolKind × DocRange)
  | .nil => []
  | .cons s rest => flattenSym s ++ flattenSyms rest
end

/-- The flat symbol operation (`findDocumentSymbols`). -/
def findDocumentSymbolsM (st : ServiceState) (doc : ParsedDocument) :
    List (String × SymbolKind × DocRange) :=
  flattenSyms (findDocumentSymbols2M st doc)

/-- Depth of a symbol hierarchy: 0 for no symbols, and each level of
children adds one. -/
def symListDepth : SymList → Nat
  | .nil => 0
  | .cons (.mk _ _ _ cs) rest => max (1 + symListDepth cs) (symListDepth rest)

mutual
/-- Nesting depth of a document node: scalars and aliases are depth 0, each
mapping pair or sequence item adds one level above its value. -/
def nestingDepth : DocumentNode → Nat
  | .scalar _ _ _ => 0
  | .aliasRef _ _ => 0
  | .mapping ps _ => pairsDepth ps
  | .sequence its _ => itemsDepth its
/-- Nesting depth contributed by a mapping's pairs. -/
def pairsDepth : PairList → Nat
  | .nil => 0
  | .cons _ _ v rest => max (1 + nestingDepth v) (pairsDepth rest)
/-- Nesting depth contributed by a sequence's items. -/
def itemsDepth : NodeList → Nat
  | .nil => 0
  | .cons h t => max (1 + nestingDepth h) (itemsDepth t)
end

/-! ## Matching engine (C4)

Modelled from the spec (§4.3): the matcher's implementation files are
missing, so the schema shape, the per-branch fitness score and the
first-wins selection are modelled from the spec's words. -/

mutual
/-- Modelled from the spec: a resolved schema fragment — scalar type or enum
constraints, object properties with required keys, the composition
operators, and the circular-reference placeholder. -/
inductive SchemaM where
  | typeOf (t : String)
  | enumOf (vs : List String)
  | objectOf (props : PropListM) (required : List String)
  | allOf (branches : SchemaListM)
  | anyOf (branches : SchemaListM)
  | oneOf (branches : SchemaListM)
  | notOf (branch : SchemaM)
  | circularPlaceholder
deriving DecidableEq, Repr
/-- A list of composition branches. -/
inductive SchemaListM where
  | nil
  | cons (hd : SchemaM) (tl : SchemaListM)
deriving DecidableEq, Repr
/-- The `properties` map of an object schema. -/
inductive PropListM where
  | nil
  | cons (key : String) (sub : SchemaM) (tl : PropListM)
deriving DecidableEq, Repr
end

/-- A local validation problem produced by the matcher. -/
inductive ProblemM where
  | typeMismatch (expected actual : String)
  | missingProperty (key : String)
  | enumMismatch (value : String)
  | forbiddenMatch
  | ambiguousUnion
deriving DecidableEq, Repr

/-- Modelled from the spec: problem penalty, with type mismatches weighted
higher than e.g. missing properties. -/
def problemWeight : ProblemM → Int
  | .typeMismatch _ _ => 2
  | .missingProperty _ => 1
  | .enumMismatch _ => 1
  | .forbiddenMatch => 1
  | .ambiguousUnion => 1

/-- The matcher's per-branch result: keys/elements structurally accounted
for, and the local validation problems. -/
structure MatchRes where
  accounted : Nat
  problems : List ProblemM
deriving DecidableEq, Repr

/-- Modelled from the spec: fitness score = structurally accounted count
minus the weighted problem penalties. -/
def score (r : MatchRes) : Int :=
  (r.accounted : Int) - (r.problems.map problemWeight).sum

/-- Modelled from the spec: fold over the remaining branch results, keeping
the current best and replacing it only on a strictly higher score — so the
first branch wins ties. -/
def pickBestAux (r : MatchRes) (rs : List MatchRes) : MatchRes :=
  rs.foldl (fun b x => if score b < score x then x else b) r

/-- Best branch result of a non-empty list, first-wins on ties. -/
def pickBest : List MatchRes → Option MatchRes
  | [] => none
  | r :: rs => some (pickBestAux r rs)

/-- The type name of a node, used for `type` checks: containers by shape,
scalars by the type the parser collaborator tagged them with. -/
def nodeTypeName : DocumentNode → String
  | .mapping _ _ => "object"
  | .sequence _ _ => "array"
  | .aliasRef _ _ => "alias"
  | .scalar styp _ _ => styp

/-- The keys of a mapping's pairs, in order. -/
def pairKeys : PairList → List String
  | .nil => []
  | .cons k _ _ rest => k :: pairKeys rest

/-- Look up the subschema declared for a property key. -/
def propLookup (key : String) : PropListM → Option SchemaM
  | .nil => none
  | .cons k sub tl => if k = key then some sub else propLookup key tl

/-- The property keys declared by an object schema. -/
def propKeys : PropListM → List String
  | .nil => []
  | .cons k _ tl => k :: propKeys tl

/-- Missing-required-property problems of a mapping. -/
def requiredProblems (ps : PairList) (required : List String) : List ProblemM :=
  (required.filter (fun k => decide (¬ k ∈ pairKeys ps))).map .missingProperty

/-- Count of branch results that fully match with zero problems. -/
def countFull (rs : List MatchRes) : Nat :=
  (rs.filter (fun r => r.problems.isEmpty)).length

mutual
/-- Modelled from the spec (§4.3): match a node against a schema fragment.
Composition: `allOf` unions problems; `anyOf`/`oneOf` score each branch
independently against the same node and surface only the selected (first
best) branch's problems, `oneOf` additionally flagging an ambiguity problem
when two or more branches fully match; `not` reports a match as a problem;
the circular placeholder is a full zero-problem match. -/
def matchNode (n : DocumentNode) : SchemaM → MatchRes
  | .typeOf t =>
      if nodeTypeName n = t then ⟨1, []⟩ else ⟨0, [.typeMismatch t (nodeTypeName n)]⟩
  | .enumOf vs =>
      match n with
      | .scalar _ v _ => if v ∈ vs then ⟨1, []⟩ else ⟨0, [.enumMismatch v]⟩
      | _ => ⟨0, [.typeMismatch "scalar" (nodeTypeName n)]⟩
  | .objectOf props required =>
      match n with
      | .mapping ps _ =>
          let inner := matchObject props ps
          ⟨inner.accounted, requiredProblems ps required ++ inner.problems⟩
      | _ => ⟨0, [.typeMismatch "object" (nodeTypeName n)]⟩
  | .allOf bs => matchAll n bs
  | .anyOf bs =>
      match pickBest (matchEach n bs) with
      | none => ⟨0, []⟩
      | some b => ⟨b.accounted, b.problems⟩
  | .oneOf bs =>
      let rs := matchEach n bs
      match pickBest rs with
      | none => ⟨0, []⟩
      | some b =>
          ⟨b.accounted,
            b.problems ++ (if 2 ≤ countFull rs then [.ambiguousUnion] else [])⟩
  | .notOf b =>
      let r := matchNode n b
      if r.problems = [] then ⟨0, [.forbiddenMatch]⟩ else ⟨1, []⟩
  | .circularPlaceholder => ⟨1, []⟩
termination_by s => (sizeOf n, sizeOf s)
/-- Match each pair of a mapping against its declared property subschema;
pairs with a declared property are structurally accounted for. -/
def matchObject (props : PropListM) : PairList → MatchRes
  | .nil => ⟨0, []⟩
  | .cons k _ v rest =>
      let tail := matchObject props rest
      match propLookup k props with
      | none => tail
      | some sub =>
          let rv := matchNode v sub
          ⟨1 + tail.accounted, rv.problems ++ tail.problems⟩
termination_by ps => (sizeOf ps, sizeOf props)
/-- Score every composition branch independently against the same node. -/
def matchEach (n : DocumentNode) : SchemaListM → List MatchRes
  | .nil => []
  | .cons hd tl => matchNode n hd :: matchEach n tl
termination_by l => (sizeOf n, sizeOf l)
/-- `allOf`: every branch must match; problems are unioned, accounted
counts summed. -/
def matchAll (n : DocumentNode) : SchemaListM → MatchRes
  | .nil => ⟨0, []⟩
  | .cons hd tl =>
      let r := matchNode n hd
      let rest := matchAll n tl
      ⟨r.accounted + rest.accounted, r.problems ++ rest.problems⟩
termination_by l => (sizeOf n, sizeOf l)
end

/-! ## Diagnostics, validation and fetch handling (C5, C6) -/

/-- Diagnostic severity. -/
inductive Severity where
  | error
  | warning
  | information
deriving DecidableEq, Repr

/-- A diagnostic surfaced to the host. -/
structure Diagnostic where
  message : String
  severity : Severity
  range : DocRange
deriving DecidableEq, Repr

mutual
/-- Modelled from the spec (§4.4): the schema-independent structural checks
— duplicate mapping keys and unresolvable alias references. -/
def structDiagsNode (anchors : List String) : DocumentNode → List Diagnostic
  | .scalar _ _ _ => []
  | .aliasRef name r =>
      if name ∈ anchors then [] else [⟨"unresolved alias: " ++ name, .error, r⟩]
  | .mapping ps _ => structDiagsPairs anchors [] ps
  | .sequence its _ => structDiagsItems anchors its
/-- Structural checks over a mapping's pairs, carrying the keys seen so far
to detect duplicates. -/
def structDiagsPairs (anchors seen : List String) : PairList → List Diagnostic
  | .nil => []
  | .cons k kr v rest =>
      (if k ∈ seen then [⟨"duplicate key: " ++ k, .error, kr⟩] else []) ++
        structDiagsNode anchors v ++ structDiagsPairs anchors (k :: seen) rest
/-- Structural checks over a sequence's items. -/
def structDiagsItems (anchors : List String) : NodeList → List Diagnostic
  | .nil => []
  | .cons h t => structDiagsNode anchors h ++ structDiagsItems anchors t
end

/-- The schema-independent document-level diagnostics. -/
def structuralDiagnostics (doc : ParsedDocument) : List Diagnostic :=
  structDiagsNode doc.anchors doc.root

/-- Render a matcher problem as a message. -/
def problemMessage : ProblemM → String
  | .typeMismatch expected actual => "expected " ++ expected ++ ", got " ++ actual
  | .missingProperty k => "missing property " ++ k
  | .enumMismatch v => "value not allowed: " ++ v
  | .forbiddenMatch => "matched schema forbidden by not"
  | .ambiguousUnion => "matches multiple schemas when only one must validate"

/-- Diagnostics derived from one candidate root schema: the problems of the
selected match, lowered onto the root's range. -/
def schemaDiags (root : DocumentNode) (s : SchemaM) : List Diagnostic :=
  (matchNode root s).problems.map
    (fun p => ⟨problemMessage p, .error, root.rangeOf⟩)

/-- Modelled from the spec (§4.4): validation merges the structural checks
with the schema-derived diagnostics of every candidate root schema. -/
def doValidationM (doc : ParsedDocument) (candidates : List SchemaM) :
    List Diagnostic :=
  structuralDiagnostics doc ++
    candidates.foldr (fun s acc => schemaDiags doc.root s ++ acc) []

/-- The diagnostic produced when a schema fetch fails: the displayable error
string from the fetch collaborator, wrapped as SchemaUnavailable at low
(warning) severity. -/
def unavailableDiag (uri msg : String) (r : DocRange) : Diagnostic :=
  ⟨"SchemaUnavailable: " ++ uri ++ ": " ++ msg, .warning, r⟩

/-- Modelled from the spec (§4.1, §7): validation over the URIs associated
to the document; a failed fetch is wrapped into a single low-severity
SchemaUnavailable diagnostic instead of aborting, a successful fetch is
parsed by the collaborator `parse` and validated against. -/
def doValidationFetch (parse : String → SchemaM) (fetch : SchemaRequestService)
    (uris : List String) (doc : ParsedDocument) : List Diagnostic :=
  structuralDiagnostics doc ++
    uris.foldr
      (fun uri acc =>
        (match fetch uri with
         | .error msg => [unavailableDiag uri msg doc.root.rangeOf]
         | .ok content => schemaDiags doc.root (parse content)) ++ acc)
      []

/-- A short descriptive label of a schema fragment, standing for the
`title`/`description` text hover returns. -/
def schemaLabel : SchemaM → String
  | .typeOf t => "type " ++ t
  | .enumOf _ => "enum"
  | .objectOf _ _ => "object"
  | .allOf _ => "allOf"
  | .anyOf _ => "anyOf"
  | .oneOf _ => "oneOf"
  | .notOf _ => "not schema"
  | .circularPlaceholder => "circular reference"

/-- Modelled from the spec (§4.6, §7): hover returns descriptive text from
the first available schema; a failing fetch contributes nothing and never
aborts the request. -/
def doHoverM (parse : String → SchemaM) (fetch : SchemaRequestService)
    (uris : List String) (_doc : ParsedDocument) (_cursorOffset : Nat) :
    Option String :=
  uris.foldr
    (fun uri acc =>
      match fetch uri with
      | .error _ => acc
      | .ok content => some (schemaLabel (parse content)))
    none

/-- Property-name completions from one schema: keys declared but not already
present as siblings. -/
def propCompletions (s : SchemaM) (doc : ParsedDocument) : List String :=
  match s, doc.root with
  | .objectOf props _, .mapping ps _ =>
      (propKeys props).filter (fun k => decide (¬ k ∈ pairKeys ps))
  | _, _ => []

/-- Modelled from the spec (§4.5, §7): completion over the associated URIs;
a failing fetch contributes no items and never aborts the request. -/
def doCompleteM (parse : String → SchemaM) (fetch : SchemaRequestService)
    (uris : List String) (doc : ParsedDocument) (_cursorOffset : Nat) :
    List String :=
  uris.foldr
    (fun uri acc =>
      (match fetch uri with
       | .error _ => []
       | .ok content => propCompletions (parse content) doc) ++ acc)
    []

/-! ## Reference resolver (C3)

Modelled from the spec (§4.2, §9): the resolver's implementation files are
missing.  References are resolved against the schema store; a reference
whose target is already on the resolution chain ("resolving") becomes a
circular-reference placeholder with a non-fatal note, a reference to an
unknown target becomes a not-found placeholder with a note, and resolution
always returns a value — it has no failure outcome. -/

mutual
/-- A raw schema tree: data leaves, pointer-style references, and composite
nodes. -/
inductive RawSchema where
  | leaf (data : String)
  | ref (target : String)
  | comp (children : RawList)
deriving DecidableEq, Repr
/-- Children of a composite raw schema node. -/
inductive RawList where
  | nil
  | cons (hd : RawSchema) (tl : RawList)
deriving DecidableEq, Repr
end

mutual
/-- A resolved schema node: references are replaced by the resolved target,
a circular-reference placeholder, or a not-found placeholder. -/
inductive ResolvedNode where
  | leaf (data : String)
  | circular (target : String)
  | notFound (target : String)
  | comp (children : ResolvedList)
deriving DecidableEq, Repr
/-- Children of a resolved composite node. -/
inductive ResolvedList where
  | nil
  | cons (hd : ResolvedNode) (tl : ResolvedList)
deriving DecidableEq, Repr
end

/-- A non-fatal resolution note attached to the resolved schema. -/
inductive ResolutionNote where
  | circularReference (target : String)
  | referenceNotFound (target : String)
deriving DecidableEq, Repr

/-- The schema store: raw schema documents keyed by URI. -/
abbrev Store : Type := List (String × RawSchema)

/-- The number of store URIs not yet on the resolution chain — the measure
that shrinks each time the resolver follows a reference. -/
def countNotResolving (store : Store) (resolving : List String) : Nat :=
  ((store.map Prod.fst).filter (fun k => decide (¬ k ∈ resolving))).length

/-- A key with a successful lookup is among the store's keys. -/
theorem lookup_mem_keys {t : String} {raw : RawSchema} :
    (store : Store) → store.lookup t = some raw → t ∈ store.map Prod.fst
  | [], h => by simp [List.lookup] at h
  | (k, v) :: rest, h => by
      by_cases hk : t = k
      · simp [hk]
      · have hbeq : (t == k) = false := by
          simpa using hk
        have hrest : rest.lookup t = some raw := by
          simpa [List.lookup, hbeq] using h
        simpa using Or.inr (lookup_mem_keys rest hrest)

/-- Filtering with a pointwise-stronger predicate keeps at most as many
elements. -/
theorem length_filter_imp {p q : String → Bool}
    (hpq : ∀ k, q k = true → p k = true) :
    (l : List String) → (l.filter q).length ≤ (l.filter p).length
  | [] => Nat.le_refl 0
  | a :: l' => by
      have h1 := length_filter_imp hpq l'
      by_cases hq : q a = true
      · simp [List.filter_cons, hq, hpq a hq]
        omega
      · by_cases hp : p a = true
        · simp [List.filter_cons, hq, hp]
          omega
        · simp [List.filter_cons, hq, hp]
          omega

/-- Filtering with a strictly-stronger predicate that loses a present
element keeps strictly fewer elements. -/
theorem length_filter_lt {p q : String → Bool}
    (hpq : ∀ k, q k = true → p k = true) (t : String)
    (hq : q t = false) (hp : p t = true) :
    (l : List String) → t ∈ l → (l.filter q).length < (l.filter p).length
  | a :: l', hmem => by
      by_cases hat : t = a
      · subst hat
        simp [List.filter_cons, hq, hp]
        exact Nat.lt_succ_of_le (length_filter_imp hpq l')
      · have hmem' : t ∈ l' := by
          rcases List.mem_cons.mp hmem with h | h
          · exact absurd h hat
          · exact h
        have ih := length_filter_lt hpq t hq hp l' hmem'
        by_cases hqa : q a = true
        · have hpa : p a = true := hpq a hqa
          simp [List.filter_cons, hqa, hpa]
          omega
        · by_cases hpa : p a = true
          · simp [List.filter_cons, hqa, hpa]
            omega
          · simp [List.filter_cons, hqa, hpa]
            exact ih

/-- Adding a fresh store key to the resolution chain strictly shrinks the
count of keys not yet on it. -/
theorem countNotResolving_lt (store : Store) (resolving : List String)
    (t : String) (hmem : t ∈ store.map Prod.fst) (hres : ¬ t ∈ resolving) :
    countNotResolving store (t :: resolving) < countNotResolving store resolving := by
  unfold countNotResolving
  have hpq : ∀ k, (decide (¬ k ∈ t :: resolving)) = true →
      (decide (¬ k ∈ resolving)) = true := by
    intro k hk
    simp only [decide_eq_true_eq] at hk ⊢
    exact fun hr => hk (List.mem_cons_of_mem t hr)
  have hqt : (decide (¬ t ∈ t :: resolving)) = false := by simp
  have hpt : (decide (¬ t ∈ resolving)) = true := by simpa using hres
  exact length_filter_lt hpq t hqt hpt (store.map Prod.fst) hmem

mutual
/-- Modelled from the spec (§4.2): resolve a raw schema against the store,
carrying the chain of URIs currently being resolved.  A reference back into
the chain yields a circular placeholder and a non-fatal note; an unknown
target yields a not-found placeholder and a note; resolution always
terminates with a value. -/
def resolveNode (store : Store) (resolving : List String) :
    RawSchema → ResolvedNode × List ResolutionNote
  | .leaf d => (.leaf d, [])
  | .comp cs =>
      let rl := resolveList store resolving cs
      (.comp rl.1, rl.2)
  | .ref t =>
      if hres : t ∈ resolving then (.circular t, [.circularReference t])
      else
        match hlook : store.lookup t with
        | none => (.notFound t, [.referenceNotFound t])
        | some raw => resolveNode store (t :: resolving) raw
termination_by raw => (countNotResolving store resolving, sizeOf raw)
decreasing_by
  all_goals simp_wf
  · apply Prod.Lex.right
    omega
  · apply Prod.Lex.left
    exact countNotResolving_lt store resolving t (lookup_mem_keys store hlook) hres
/-- Resolve the children of a composite node, concatenating their notes. -/
def resolveList (store : Store) (resolving : List String) :
    RawList → ResolvedList × List ResolutionNote
  | .nil => (.nil, [])
  | .cons hd tl =>
      let r := resolveNode store resolving hd
      let rs := resolveList store resolving tl
      (.cons r.1 rs.1, r.2 ++ rs.2)
termination_by l => (countNotResolving store resolving, sizeOf l)
decreasing_by
  all_goals simp_wf
  · apply Prod.Lex.right
    omega
  · apply Prod.Lex.right
    omega
end

mutual
/-- The same resolver with an explicit recursion budget spent each time a
reference is followed; `none` models running out of budget. -/
def resolveFuelNode (fuel : Nat) (store : Store) (resolving : List String) :
    RawSchema → Option (ResolvedNode × List ResolutionNote)
  | .leaf d => some (.leaf d, [])
  | .comp cs =>
      match resolveFuelList fuel store resolving cs with
      | none => none
      | some rl => some (.comp rl.1, rl.2)
  | .ref t =>
      if t ∈ resolving then some (.circular t, [.circularReference t])
      else
        match store.lookup t with
        | none => some (.notFound t, [.referenceNotFound t])
        | some raw =>
            match fuel with
            | 0 => none
            | fuel' + 1 => resolveFuelNode fuel' store (t :: resolving) raw
termination_by raw => (fuel, sizeOf raw)
/-- Budgeted resolution of composite children. -/
def resolveFuelList (fuel : Nat) (store : Store) (resolving : List String) :
    RawList → Option (ResolvedList × List ResolutionNote)
  | .nil => some (.nil, [])
  | .cons hd tl =>
      match resolveFuelNode fuel store resolving hd with
      | none => none
      | some r =>
          match resolveFuelList fuel store resolving tl with
          | none => none
          | some rs => some (.cons r.1 rs.1, r.2 ++ rs.2)
termination_by l => (fuel, sizeOf l)
end

mutual
/-- The symbol hierarchy of a node is exactly as deep as the node's nesting. -/
theorem symListDepth_nodeSymbols :
    (n : DocumentNode) → symListDepth (nodeSymbols n) = nestingDepth n
  | .scalar _ _ _ => rfl
  | .aliasRef _ _ => rfl
  | .mapping ps _ => by
      rw [nodeSymbols, nestingDepth]; exact symListDepth_pairSymbols ps
  | .sequence its _ => by
      rw [nodeSymbols, nestingDepth]; exact symListDepth_seqSymbols its 0
/-- Depth correspondence for mapping pairs. -/
theorem symListDepth_pairSymbols :
    (ps : PairList) → symListDepth (pairSymbols ps) = pairsDepth ps
  | .nil => rfl
  | .cons k kr v rest => by
      rw [pairSymbols, pairsDepth, symListDepth,
        symListDepth_nodeSymbols v, symListDepth_pairSymbols rest]
/-- Depth correspondence for sequence items, at any starting index. -/
theorem symListDepth_seqSymbols :
    (its : NodeList) → (i : Nat) →
      symListDepth (seqSymbols its i) = itemsDepth its
  | .nil, _ => rfl
  | .cons h t, i => by
      rw [seqSymbols, itemsDepth, symListDepth,
        symListDepth_nodeSymbols h, symListDepth_seqSymbols t (i + 1)]
end

end YamlLS

namespace YamlLS

/-- C1: the spec's operation list against the members of the object returned
by `getLanguageService`.  The claim says the two coincide; in fact the object
also has the members `findDefinition` and `findLinks`, which the spec's list
omits.  This closed theorem refutes the claim as stated at the concrete
member `findDefinition`. -/
theorem C1_counterexample :
    LSMember.findDefinition ∈ languageServiceMembers ∧
      LSMember.findDefinition ∉ specListedOperations ∧
      LSMember.findLinks ∈ languageServiceMembers ∧
      LSMember.findLinks ∉ specListedOperations := by
  decide

/-- C1 (amended): every operation named in the spec's list is a member of
the object returned by `getLanguageService`, and every member of that object
is either one of the listed operations or one of the two extra members
`findDefinition` and `findLinks`. -/
theorem C1_surface_amended :
    (∀ m : LSMember, m ∈ specListedOperations → m ∈ languageServiceMembers) ∧
      (∀ m : LSMember, m ∈ languageServiceMembers →
        m ∈ specListedOperations ∨ m = LSMember.findDefinition ∨
          m = LSMember.findLinks) := by
  decide

/-- C9: `findDefinition` always resolves to the empty list, for every
document, position and parsed JSON document. -/
theorem C9_findDefinition_stub (document : TextDocument) (position : Position)
    (doc : JSONDocument) :
    findDefinition document position doc = [] :=
  rfl

/-- Folding `registerExternalSchema` over a configuration list appends the
corresponding entries. -/
theorem externalSchemas_foldl (l : List SchemaConfiguration)
    (ss : SchemaServiceState) :
    (l.foldl (fun a c => registerExternalSchema a c.uri c.fileMatch c.schema)
        ss).externalSchemas
      = ss.externalSchemas ++ l.map (fun c => ⟨c.uri, c.fileMatch, c.schema⟩) := by
  induction l generalizing ss with
  | nil => simp
  | cons c cs ih =>
      rw [List.foldl_cons, ih]
      simp [registerExternalSchema]

/-- After `configure`, the external schema associations are exactly the
entries of the latest settings. -/
theorem configure_externalSchemas (st : ServiceState)
    (settings : LanguageSettings) :
    (configure st settings).schemaService.externalSchemas
      = ((settings.schemas).getD []).map
          (fun c => ⟨c.uri, c.fileMatch, c.schema⟩) := by
  cases h : settings.schemas with
  | none => simp [configure, h, clearExternalSchemas]
  | some l => simp [configure, h, externalSchemas_foldl, clearExternalSchemas]

/-- C10: `configure` replaces rather than accumulates external schema
registrations: after any call, the external associations are exactly the
entries of `settings.schemas` (none when absent), independent of the
previous state. -/
theorem C10_configure_replaces (st1 st2 : ServiceState)
    (settings : LanguageSettings) :
    (configure st1 settings).schemaService.externalSchemas
        = ((settings.schemas).getD []).map
            (fun c => ⟨c.uri, c.fileMatch, c.schema⟩) ∧
      (configure st1 settings).schemaService.externalSchemas
        = (configure st2 settings).schemaService.externalSchemas :=
  ⟨configure_externalSchemas st1 settings,
    (configure_externalSchemas st1 settings).trans
      (configure_externalSchemas st2 settings).symm⟩

/-- C7: `resetSchema uri` delegates to the schema service's
resource-change invalidation and returns its boolean result, and a cache
entry survives it exactly when its resolution chain never touched `uri`
(in particular every unrelated cached resolution is left unchanged). -/
theorem C7_resetSchema_frame (st : ServiceState) (uri : String) :
    (resetSchema st uri).1.schemaService
          = (onResourceChange st.schemaService uri).1 ∧
      (resetSchema st uri).2 = (onResourceChange st.schemaService uri).2 ∧
      (resetSchema st uri).2
          = st.schemaService.cache.any (fun e => decide (uri ∈ e.chain)) ∧
      ∀ e ∈ st.schemaService.cache,
        (e ∈ (resetSchema st uri).1.schemaService.cache ↔ ¬ uri ∈ e.chain) := by
  refine ⟨rfl, rfl, rfl, ?_⟩
  intro e he
  simp [resetSchema, onResourceChange, List.mem_filter, he]

/-- A concrete service state with two cached resolutions, one touching the
URI "a" and one not. -/
def serviceStateW : ServiceState :=
  { schemaService :=
      { externalSchemas := []
        savedSchemas := []
        cache := [⟨"s1", ["a", "b"], "x"⟩, ⟨"s2", ["c"], "y"⟩] }
    validationSettings := none
    hoverSettings := none
    completionSettings := none
    completionCustomTags := []
    formatterSettings := none }

/-- Witness for C7 at a concrete state: resetting "a" reports a change and
keeps the cache entry whose chain never touched "a". -/
theorem C7_resetSchema_frame_witness :
    (⟨"s2", ["c"], "y"⟩ : CacheEntry)
        ∈ (resetSchema serviceStateW "a").1.schemaService.cache ∧
      (resetSchema serviceStateW "a").2 = true := by
  refine ⟨((C7_resetSchema_frame serviceStateW "a").2.2.2
    ⟨"s2", ["c"], "y"⟩ (by decide)).mpr (by decide), ?_⟩
  rw [(C7_resetSchema_frame serviceStateW "a").2.2.1]
  decide

/-- C8: operations performed through one instance never change another
instance of the same process, and `getLanguageService` always starts from
the fresh state, whatever collaborators it is given. -/
theorem C8_instance_independence (p : Process) (i j : Nat) (op : LSOp)
    (req : SchemaRequestService) (ctx : WorkspaceContextService)
    (h : j ≠ i) :
    stepProcess p i op j = p j ∧
      (getLanguageService req ctx).state = freshServiceState := by
  exact ⟨by simp [stepProcess, h], rfl⟩

/-- A process of identical fresh instances, used to witness C8. -/
def processW : Process :=
  fun _ => getLanguageService (fun u => .ok u) (fun rel _ => rel)

/-- Witness for C8 at concrete instances: a schema added through instance 0
leaves instance 1 untouched. -/
theorem C8_instance_independence_witness :
    stepProcess processW 0 (.opAddSchema "id" ⟨"s"⟩) 1 = processW 1 ∧
      (getLanguageService (fun u => .ok u) (fun rel _ => rel)).state
        = freshServiceState :=
  C8_instance_independence processW 0 1 (.opAddSchema "id" ⟨"s"⟩)
    (fun u => .ok u) (fun rel _ => rel) (by decide)

/-- C2: the symbol operations are a pure structural walk — their result is
the same under any two service states (hence any two schema-store states and
association sets), and the hierarchy is exactly as deep as the document's
nesting. -/
theorem C2_symbols_pure_structural (st1 st2 : ServiceState)
    (doc : ParsedDocument) :
    findDocumentSymbols2M st1 doc = findDocumentSymbols2M st2 doc ∧
      findDocumentSymbolsM st1 doc = findDocumentSymbolsM st2 doc ∧
      symListDepth (findDocumentSymbols2M st1 doc) = nestingDepth doc.root :=
  ⟨rfl, rfl, symListDepth_nodeSymbols doc.root⟩

/-- One fold step of the best-branch selection. -/
theorem pickBestAux_cons (r x : MatchRes) (rest : List MatchRes) :
    pickBestAux r (x :: rest)
      = pickBestAux (if score r < score x then x else r) rest := by
  simp only [pickBestAux, List.foldl_cons]

/-- The fold keeps the first branch attaining the maximal score: the input
splits around the result, everything before it scoring strictly lower and
everything after it scoring no higher. -/
theorem pickBestAux_split :
    (rs : List MatchRes) → (r : MatchRes) →
      ∃ l1 l2,
        r :: rs = l1 ++ pickBestAux r rs :: l2 ∧
          (∀ x ∈ l1, score x < score (pickBestAux r rs)) ∧
          (∀ x ∈ l2, score x ≤ score (pickBestAux r rs))
  | [], r => ⟨[], [], by simp [pickBestAux], by simp, by simp⟩
  | x :: rest, r => by
      rw [pickBestAux_cons]
      by_cases h : score r < score x
      · rw [if_pos h]
        obtain ⟨m1, m2, heq, hm1, hm2⟩ := pickBestAux_split rest x
        have hxle : score x ≤ score (pickBestAux x rest) := by
          cases m1 with
          | nil =>
              simp only [List.nil_append] at heq
              injection heq with h1 _
              rw [← h1]
          | cons a m1' =>
              simp only [List.cons_append] at heq
              injection heq with h1 _
              have ha := hm1 a (List.mem_cons_self a m1')
              rw [← h1] at ha
              exact le_of_lt ha
        refine ⟨r :: m1, m2, ?_, ?_, hm2⟩
        · rw [List.cons_append, ← heq]
        · intro y hy
          rcases List.mem_cons.mp hy with rfl | hy'
          · exact lt_of_lt_of_le h hxle
          · exact hm1 y hy'
      · rw [if_neg h]
        have hxr : score x ≤ score r := le_of_not_lt h
        obtain ⟨m1, m2, heq, hm1, hm2⟩ := pickBestAux_split rest r
        cases m1 with
        | nil =>
            simp only [List.nil_append] at heq
            injection heq with h1 h2
            refine ⟨[], x :: rest, ?_, by simp, ?_⟩
            · simp [← h1]
            · intro y hy
              rcases List.mem_cons.mp hy with rfl | hy'
              · rw [← h1]
                exact hxr
              · rw [h2] at hy'
                exact hm2 y hy'
        | cons a m1' =>
            simp only [List.cons_append] at heq
            injection heq with h1 h2
            have hrlt : score r < score (pickBestAux r rest) := by
              have ha := hm1 a (List.mem_cons_self a m1')
              rw [← h1] at ha
              exact ha
            refine ⟨r :: x :: m1', m2, ?_, ?_, hm2⟩
            · simp only [List.cons_append]
              rw [← h2]
            · intro y hy
              rcases List.mem_cons.mp hy with rfl | hy'
              · exact hrlt
              · rcases List.mem_cons.mp hy' with rfl | hy''
                · exact lt_of_le_of_lt hxr hrlt
                · exact hm1 y (List.mem_cons_of_mem a hy'')

/-- C4: for `anyOf`/`oneOf`, every branch is scored independently against
the same node (`matchEach`); the selected result is one of the branch
results, attains the maximal score, and is the first branch in declaration
order attaining it; `anyOf` surfaces exactly the selected branch's problems,
and `oneOf` surfaces nothing beyond them except the distinct
ambiguous-union marker — rejected branches' problems are suppressed.  The
whole match is a function of (node, schema), hence deterministic. -/
theorem C4_union_branch_selection (n : DocumentNode) (bs : SchemaListM)
    (b : MatchRes) (h : pickBest (matchEach n bs) = some b) :
    b ∈ matchEach n bs ∧
      (∀ x ∈ matchEach n bs, score x ≤ score b) ∧
      (∃ l1 l2, matchEach n bs = l1 ++ b :: l2 ∧
        ∀ x ∈ l1, score x < score b) ∧
      (matchNode n (.anyOf bs)).problems = b.problems ∧
      (∀ p ∈ (matchNode n (.oneOf bs)).problems,
        p ∈ b.problems ∨ p = ProblemM.ambiguousUnion) := by
  have hany : (matchNode n (.anyOf bs)).problems = b.problems := by
    simp [matchNode, h]
  have hone : (matchNode n (.oneOf bs)).problems
      = b.problems ++
          (if 2 ≤ countFull (matchEach n bs) then [ProblemM.ambiguousUnion]
           else []) := by
    simp [matchNode, h]
  cases hme : matchEach n bs with
  | nil =>
      rw [hme] at h
      simp [pickBest] at h
  | cons r rs =>
      have hb : pickBestAux r rs = b := by
        rw [hme] at h
        simpa [pickBest] using h
      obtain ⟨l1, l2, heq, hl1, hl2⟩ := pickBestAux_split rs r
      rw [hb] at heq hl1 hl2
      refine ⟨?_, ?_, ⟨l1, l2, heq, hl1⟩, hany, ?_⟩
      · rw [heq]
        exact List.mem_append.mpr (Or.inr (List.mem_cons_self b l2))
      · intro x hx
        rw [heq] at hx
        rcases List.mem_append.mp hx with hx1 | hx2
        · exact le_of_lt (hl1 x hx1)
        · rcases List.mem_cons.mp hx2 with rfl | hx3
          · exact le_refl _
          · exact hl2 x hx3
      · intro p hp
        rw [hone] at hp
        rcases List.mem_append.mp hp with h1 | h2
        · exact Or.inl h1
        · right
          by_cases hc : 2 ≤ countFull (matchEach n bs)
          · rw [if_pos hc] at h2
            simpa using h2
          · rw [if_neg hc] at h2
            simp at h2

/-- A scalar node used in the C4 witness. -/
def nodeW : DocumentNode := .scalar "string" "x" ⟨0, 1⟩

/-- Two identical string branches: a tie, which the first branch wins. -/
def branchesW : SchemaListM :=
  .cons (.typeOf "string") (.cons (.typeOf "string") .nil)

/-- Witness for C4 at a concrete tie: both branches fully match, the first
is selected, and `anyOf` surfaces no problems. -/
theorem C4_union_branch_selection_witness :
    (⟨1, []⟩ : MatchRes) ∈ matchEach nodeW branchesW ∧
      (matchNode nodeW (.anyOf branchesW)).problems = [] := by
  have e1 : matchNode nodeW (.typeOf "string") = ⟨1, []⟩ := by
    simp only [matchNode]
    simp [nodeW, nodeTypeName]
  have e2 : matchEach nodeW branchesW = [⟨1, []⟩, ⟨1, []⟩] := by
    simp only [branchesW, matchEach, e1]
  have e3 : pickBest [(⟨1, []⟩ : MatchRes), ⟨1, []⟩] = some ⟨1, []⟩ := by
    simp [pickBest, pickBestAux, score, problemWeight]
  have h := C4_union_branch_selection nodeW branchesW ⟨1, []⟩
    (by rw [e2, e3])
  exact ⟨h.1, h.2.2.2.1⟩

/-- C6: with zero candidate root schemas, validation returns exactly the
structural document-level diagnostics, and whatever the candidate set is,
the structural diagnostics are always produced (as a prefix of the
result). -/
theorem C6_zero_schema_validation (doc : ParsedDocument)
    (candidates : List SchemaM) :
    doValidationM doc [] = structuralDiagnostics doc ∧
      ∃ schemaDerived,
        doValidationM doc candidates
          = structuralDiagnostics doc ++ schemaDerived :=
  ⟨by simp [doValidationM], ⟨_, rfl⟩⟩

/-- C5: a failed schema fetch never aborts a request — validation still
returns a result consisting of the structural diagnostics plus one
SchemaUnavailable diagnostic of low (warning) severity, and hover and
completion return exactly what they return with no schema associated. -/
theorem C5_fetch_failure_not_fatal (parse : String → SchemaM)
    (fetch : SchemaRequestService) (uri msg : String) (doc : ParsedDocument)
    (cursorOffset : Nat) (h : fetch uri = .error msg) :
    doValidationFetch parse fetch [uri] doc
        = structuralDiagnostics doc
            ++ [unavailableDiag uri msg doc.root.rangeOf] ∧
      (unavailableDiag uri msg doc.root.rangeOf).severity
        = Severity.warning ∧
      doHoverM parse fetch [uri] doc cursorOffset
        = doHoverM parse fetch [] doc cursorOffset ∧
      doCompleteM parse fetch [uri] doc cursorOffset
        = doCompleteM parse fetch [] doc cursorOffset := by
  refine ⟨?_, rfl, ?_, ?_⟩
  · simp [doValidationFetch, h]
  · simp [doHoverM, h]
  · simp [doCompleteM, h]

/-- A parser collaborator for the C5 witness. -/
def parseW : String → SchemaM := fun _ => .circularPlaceholder

/-- A fetch collaborator whose every request fails with a displayable
error string. -/
def fetchFailW : SchemaRequestService := fun _ => .error "unreachable"

/-- A one-scalar document for the C5 witness. -/
def docW : ParsedDocument := ⟨.scalar "string" "x" ⟨0, 1⟩, []⟩

/-- Unfolding the resolver at a reference whose target is unknown. -/
theorem resolveNode_ref_none (store : Store) (resolving : List String)
    (t : String) (hres : ¬ t ∈ resolving) (hlook : store.lookup t = none) :
    resolveNode store resolving (.ref t)
      = (.notFound t, [.referenceNotFound t]) := by
  simp only [resolveNode]
  rw [dif_neg hres]
  split
  · rfl
  · simp_all

/-- Unfolding the resolver at a reference whose target is in the store and
not yet on the chain: the target is pushed onto the chain and resolved. -/
theorem resolveNode_ref_some (store : Store) (resolving : List String)
    (t : String) (raw : RawSchema) (hres : ¬ t ∈ resolving)
    (hlook : store.lookup t = some raw) :
    resolveNode store resolving (.ref t)
      = resolveNode store (t :: resolving) raw := by
  simp only [resolveNode]
  rw [dif_neg hres]
  split
  · simp_all
  · rename_i raw2 heq
    rw [hlook] at heq
    injection heq with heq2
    rw [heq2]

mutual
/-- Any budget beyond the count of store URIs not yet on the chain suffices:
the budgeted resolver succeeds and agrees with the unbudgeted one — i.e. the
"resolving" guard bounds the recursion and resolution terminates for every
input, cycles included. -/
theorem resolveFuelNode_adequate :
    (store : Store) → (resolving : List String) → (raw : RawSchema) →
      (fuel : Nat) → countNotResolving store resolving < fuel →
      resolveFuelNode fuel store resolving raw
        = some (resolveNode store resolving raw)
  | store, resolving, .leaf d, fuel, h => by
      simp [resolveFuelNode, resolveNode]
  | store, resolving, .comp cs, fuel, h => by
      have ih := resolveFuelList_adequate store resolving cs fuel h
      simp [resolveFuelNode, resolveNode, ih]
  | store, resolving, .ref t, fuel, h => by
      by_cases hres : t ∈ resolving
      · simp [resolveFuelNode, resolveNode, hres]
      · cases hlook : store.lookup t with
        | none =>
            rw [resolveNode_ref_none store resolving t hres hlook]
            simp [resolveFuelNode, hres, hlook]
        | some raw' =>
            cases fuel with
            | zero => exact absurd h (Nat.not_lt_zero _)
            | succ fuel' =>
                have hlt : countNotResolving store (t :: resolving) < fuel' := by
                  have hdec := countNotResolving_lt store resolving t
                    (lookup_mem_keys store hlook) hres
                  omega
                have ih := resolveFuelNode_adequate store (t :: resolving)
                  raw' fuel' hlt
                rw [resolveNode_ref_some store resolving t raw' hres hlook]
                simp [resolveFuelNode, hres, hlook, ih]
termination_by store resolving raw fuel h =>
  (countNotResolving store resolving, sizeOf raw)
decreasing_by
  all_goals simp_wf
  all_goals
    first
      | (apply Prod.Lex.right
         omega)
      | (apply Prod.Lex.left
         exact countNotResolving_lt store resolving t
           (lookup_mem_keys store hlook) hres)
/-- List version of the budget-adequacy statement. -/
theorem resolveFuelList_adequate :
    (store : Store) → (resolving : List String) → (l : RawList) →
      (fuel : Nat) → countNotResolving store resolving < fuel →
      resolveFuelList fuel store resolving l
        = some (resolveList store resolving l)
  | store, resolving, .nil, fuel, h => by
      simp [resolveFuelList, resolveList]
  | store, resolving, .cons hd tl, fuel, h => by
      have ih1 := resolveFuelNode_adequate store resolving hd fuel h
      have ih2 := resolveFuelList_adequate store resolving tl fuel h
      simp [resolveFuelList, resolveList, ih1, ih2]
termination_by store resolving l fuel h =>
  (countNotResolving store resolving, sizeOf l)
decreasing_by
  all_goals simp_wf
  all_goals
    apply Prod.Lex.right
    omega
end

/-- C3: resolution of a schema containing reference cycles terminates for
every input — a recursion budget exceeding the number of store URIs not yet
on the chain always suffices and resolution always produces a value (the
resolver has no failure outcome) — and a reference that points back into
its own resolution chain is replaced by the distinct circular placeholder
node together with a non-fatal circular-reference note. -/
theorem C3_cycle_safe_resolution (store : Store) (resolving : List String)
    (raw : RawSchema) (fuel : Nat) (t : String)
    (hfuel : countNotResolving store resolving < fuel)
    (hcyc : t ∈ resolving) :
    resolveFuelNode fuel store resolving raw
        = some (resolveNode store resolving raw) ∧
      resolveNode store resolving (.ref t)
        = (.circular t, [.circularReference t]) :=
  ⟨resolveFuelNode_adequate store resolving raw fuel hfuel,
    by simp [resolveNode, hcyc]⟩

/-- A store whose two schemas refer to each other: a reference cycle. -/
def storeW : Store := [("a", .ref "b"), ("b", .ref "a")]

/-- Witness for C3 on the cyclic store: budget 3 resolves "a" (whose
resolution chain loops through "b"), and a reference to a URI already on
the chain yields the circular placeholder and its note. -/
theorem C3_cycle_safe_resolution_witness :
    resolveFuelNode 3 storeW ["c"] (.ref "a")
        = some (resolveNode storeW ["c"] (.ref "a")) ∧
      resolveNode storeW ["c"] (.ref "c")
        = (.circular "c", [.circularReference "c"]) :=
  C3_cycle_safe_resolution storeW ["c"] (.ref "a") 3 "c" (by decide)
    (by decide)

/-- Witness for C5 at concrete collaborators: the failing fetch yields the
structural diagnostics plus one warning, and hover degrades to the
no-schema answer. -/
theorem C5_fetch_failure_not_fatal_witness :
    doValidationFetch parseW fetchFailW ["https://example/schema.json"] docW
        = structuralDiagnostics docW
            ++ [unavailableDiag "https://example/schema.json" "unreachable"
                  docW.root.rangeOf] ∧
      doHoverM parseW fetchFailW ["https://example/schema.json"] docW 0
        = doHoverM parseW fetchFailW [] docW 0 :=
  ⟨(C5_fetch_failure_not_fatal parseW fetchFailW "https://example/schema.json"
      "unreachable" docW 0 rfl).1,
    (C5_fetch_failure_not_fatal parseW fetchFailW "https://example/schema.json"
      "unreachable" docW 0 rfl).2.2.1⟩

end YamlLS
